import Mathlib

/-!
Verification of the GitHub statistics aggregation pipeline of gl1tch-card
(src/src/services/github_stats_service.py together with the data models in
src/src/models/github_stats_models.py).

The Python service traverses loosely-typed JSON dictionaries with `.get`
chains.  We embed the JSON shapes the service consumes as structures whose
optional fields are `Option`s (a field holds `none` when the JSON key is
absent or null; both give `None` to Python's `dict.get`), and translate each
method of the service into a total Lean function over those structures.
-/

namespace Gl1tchCard

/-! ### GraphQL node shapes consumed by the service -/

/-- A `{ "totalCount": ... }` connection object (issues, pullRequests, gists,
followers, following).  `totalCount` is `none` when the key is absent. -/
structure CountConn where
  totalCount : Option Nat
deriving DecidableEq, Repr

/-- `defaultBranchRef.target.history` object. -/
structure CommitHistory where
  totalCount : Option Nat
deriving DecidableEq, Repr

/-- `defaultBranchRef.target` object. -/
structure BranchTarget where
  history : Option CommitHistory
deriving DecidableEq, Repr

/-- `defaultBranchRef` object. -/
structure BranchRef where
  target : Option BranchTarget
deriving DecidableEq, Repr

/-- `primaryLanguage` object. -/
structure PrimaryLanguage where
  name : Option String
deriving DecidableEq, Repr

/-- One repository node as delivered by the GraphQL `repositories.nodes`
list.  Every field the service reads with a defaulted `.get` is an
`Option`. -/
structure RepoNode where
  name : Option String
  isPrivate : Option Bool
  stargazerCount : Option Nat
  forkCount : Option Nat
  issues : Option CountConn
  pullRequests : Option CountConn
  defaultBranchRef : Option BranchRef
  primaryLanguage : Option PrimaryLanguage
deriving DecidableEq, Repr

/-- A repository node with every key absent. -/
def emptyRepo : RepoNode :=
  { name := none, isPrivate := none, stargazerCount := none, forkCount := none,
    issues := none, pullRequests := none, defaultBranchRef := none,
    primaryLanguage := none }

/-- `repo.get("isPrivate", False)`. -/
def getIsPrivate (r : RepoNode) : Bool :=
  r.isPrivate.getD false

/-- `repo.get("stargazerCount", 0)`. -/
def getStars (r : RepoNode) : Nat :=
  r.stargazerCount.getD 0

/-- `repo.get("forkCount", 0)`. -/
def getForks (r : RepoNode) : Nat :=
  r.forkCount.getD 0

/-- `repo.get("issues", \x7b\x7d).get("totalCount", 0)`. -/
def getIssues (r : RepoNode) : Nat :=
  (r.issues.bind CountConn.totalCount).getD 0

/-- `repo.get("pullRequests", \x7b\x7d).get("totalCount", 0)`. -/
def getPulls (r : RepoNode) : Nat :=
  (r.pullRequests.bind CountConn.totalCount).getD 0

/-- The guarded commit-count chain of the service:
`repo.get("defaultBranchRef", ...).get("target", ...).get("history", ...)
.get("totalCount", 0) if repo.get("defaultBranchRef") and
repo.get("defaultBranchRef", ...).get("target") else 0`.
A missing or null `defaultBranchRef` or `target` short-circuits to 0 (in
Python an empty dict is falsy as well, which likewise yields 0 through the
defaulted chain), and a missing `history` or `totalCount` defaults to 0. -/
def getCommits (r : RepoNode) : Nat :=
  match r.defaultBranchRef with
  | none => 0
  | some br =>
    match br.target with
    | none => 0
    | some t => ((t.history.bind CommitHistory.totalCount).getD 0)

/-! ### Data models (github_stats_models.py) -/

/-- `CalculatedStats` dataclass. -/
structure CalculatedStats where
  total_stars : Nat
  total_forks : Nat
  total_issues : Nat
  total_pulls : Nat
  total_commits : Nat
  public_repos : Nat
  private_repos : Nat
  public_stars : Nat
  private_stars : Nat
  public_forks : Nat
  private_forks : Nat
  public_issues : Nat
  private_issues : Nat
  public_pulls : Nat
  private_pulls : Nat
  public_commits : Nat
  private_commits : Nat
deriving DecidableEq, Repr

/-- The all-zero `CalculatedStats` (also the value produced by the
`except` fallback of `_calculate_repo_stats`). -/
def zeroCalculatedStats : CalculatedStats :=
  { total_stars := 0, total_forks := 0, total_issues := 0, total_pulls := 0,
    total_commits := 0, public_repos := 0, private_repos := 0,
    public_stars := 0, private_stars := 0, public_forks := 0,
    private_forks := 0, public_issues := 0, private_issues := 0,
    public_pulls := 0, private_pulls := 0, public_commits := 0,
    private_commits := 0 }

/-- `GitHubStatsService._calculate_repo_stats`.  The Python body is wrapped
in `try/except`, but on the typed node shapes above every `.get` chain is
total, so the fallback branch (which would return `zeroCalculatedStats`) is
unreachable and the translation is the direct computation. -/
def calculate_repo_stats (repos_data : List RepoNode) : CalculatedStats :=
  let public_repos := repos_data.filter (fun r => !getIsPrivate r)
  let private_repos := repos_data.filter (fun r => getIsPrivate r)
  { total_stars := (repos_data.map getStars).sum
    total_forks := (repos_data.map getForks).sum
    total_issues := (repos_data.map getIssues).sum
    total_pulls := (repos_data.map getPulls).sum
    total_commits := (repos_data.map getCommits).sum
    public_repos := public_repos.length
    private_repos := private_repos.length
    public_stars := (public_repos.map getStars).sum
    private_stars := (private_repos.map getStars).sum
    public_forks := (public_repos.map getForks).sum
    private_forks := (private_repos.map getForks).sum
    public_issues := (public_repos.map getIssues).sum
    private_issues := (private_repos.map getIssues).sum
    public_pulls := (public_repos.map getPulls).sum
    private_pulls := (private_repos.map getPulls).sum
    public_commits := (public_repos.map getCommits).sum
    private_commits := (private_repos.map getCommits).sum }

/-! ### Partition lemmas for the additive invariant -/

/-- Summing a metric over a boolean partition of the list recovers the sum
over the whole list. -/
theorem sum_map_filter_split (f : RepoNode → Nat) (p : RepoNode → Bool)
    (l : List RepoNode) :
    (l.map f).sum
      = ((l.filter (fun r => !p r)).map f).sum
        + ((l.filter (fun r => p r)).map f).sum := by
  induction l with
  | nil => simp
  | cons a l ih =>
    cases hp : p a <;> simp [hp, ih] <;> omega

/-- The two halves of a boolean partition account for the whole length. -/
theorem length_filter_split (p : RepoNode → Bool) (l : List RepoNode) :
    (l.filter (fun r => !p r)).length + (l.filter (fun r => p r)).length
      = l.length := by
  induction l with
  | nil => simp
  | cons a l ih =>
    cases hp : p a <;> simp [hp] <;> omega

/-! ### Language ranker (`_extract_languages`) -/

/-- The primary-language extraction of `_extract_languages`:
`lang_data = repo.get("primaryLanguage")`, then the tally body runs only
`if lang_data and lang_data.get("name")` — a null/absent object, an absent
name, and the (falsy) empty-string name are all skipped. -/
def repoLang (r : RepoNode) : Option String :=
  match r.primaryLanguage with
  | none => none
  | some pl =>
    match pl.name with
    | none => none
    | some n => if n = "" then none else some n

/-- One tally update:
`github_languages[lang] = github_languages.get(lang, 0) + 1` on an
insertion-ordered association list (a Python `dict` iterates its keys in
insertion order). -/
def bump : List (String × Nat) → String → List (String × Nat)
  | [], lang => [(lang, 1)]
  | (k, c) :: rest, lang =>
    if k = lang then (k, c + 1) :: rest else (k, c) :: bump rest lang

/-- The tally loop of `_extract_languages` over the stream of primary
language names. -/
def tallyLangs : List String → List (String × Nat) → List (String × Nat)
  | [], acc => acc
  | l :: ls, acc => tallyLangs ls (bump acc l)

/-- The tally loop as written in the source: iterate over the repositories,
skipping those without a usable primary language. -/
def tallyRepos : List RepoNode → List (String × Nat) → List (String × Nat)
  | [], acc => acc
  | r :: rs, acc =>
    match repoLang r with
    | none => tallyRepos rs acc
    | some lang => tallyRepos rs (bump acc lang)

/-- The comparator of `sorted(github_languages.items(), key=lambda x: x[1],
reverse=True)`: `a` may stay before `b` whenever `a`'s count is at least
`b`'s.  Python's `sorted` is stable, which `List.insertionSort` with this
non-strict relation reproduces exactly. -/
def langOrder (a b : String × Nat) : Prop := b.2 ≤ a.2

instance : DecidableRel langOrder := fun a b => Nat.decLe b.2 a.2

instance : IsTotal (String × Nat) langOrder := ⟨fun a b => Nat.le_total b.2 a.2⟩

instance : IsTrans (String × Nat) langOrder := ⟨fun _ _ _ hab hbc => le_trans hbc hab⟩

/-- `GitHubStatsService._extract_languages` (default `top_n = 5`): tally the
primary languages in first-seen order, stable-sort by descending count, take
the first `top_n` entries and keep the names. -/
def extract_languages (repos_data : List RepoNode) (top_n : Nat) : List String :=
  let github_languages := tallyRepos repos_data []
  let github_top_langs :=
    (List.insertionSort langOrder github_languages).take top_n
  github_top_langs.map Prod.fst

/-- Occurrence count of a language name in the tallied stream. -/
def occCount : List String → String → Nat
  | [], _ => 0
  | l :: ls, x => (if l = x then 1 else 0) + occCount ls x

/-- The subsequence of first occurrences of a stream, in stream order:
a name is emitted when it has not been seen before. -/
def firstOccurFrom (seen : List String) : List String → List String
  | [] => []
  | x :: xs =>
    if x ∈ seen then firstOccurFrom seen xs
    else x :: firstOccurFrom (x :: seen) xs

/-- First-match lookup of a key's count in the association list (0 when the
key is absent), mirroring `github_languages.get(lang, 0)`. -/
def keyCount : List (String × Nat) → String → Nat
  | [], _ => 0
  | (k, c) :: rest, x => if k = x then c else keyCount rest x

/-! ### Lemmas about the tally -/

/-- Iterating over repositories and skipping language-less ones is the same
as iterating over the stream of usable primary-language names. -/
theorem tallyRepos_eq_tallyLangs (rs : List RepoNode)
    (acc : List (String × Nat)) :
    tallyRepos rs acc = tallyLangs (rs.filterMap repoLang) acc := by
  induction rs generalizing acc with
  | nil => rfl
  | cons r rs ih =>
    cases h : repoLang r <;> simp [tallyRepos, tallyLangs, h, ih]

/-- `bump` leaves the key sequence unchanged when the key is already
present, and appends the key otherwise. -/
theorem keys_bump (acc : List (String × Nat)) (l : String) :
    (bump acc l).map Prod.fst
      = if l ∈ acc.map Prod.fst then acc.map Prod.fst
        else acc.map Prod.fst ++ [l] := by
  induction acc with
  | nil => simp [bump]
  | cons p rest ih =>
    obtain ⟨k, c⟩ := p
    by_cases hk : k = l
    · subst hk
      simp [bump]
    · by_cases hm : l ∈ rest.map Prod.fst <;>
        simp [bump, hk, hm, ih, Ne.symm hk]

/-- `firstOccurFrom` only depends on the membership of the seen list. -/
theorem firstOccurFrom_congr (s₁ s₂ : List String) (l : List String)
    (h : ∀ x, x ∈ s₁ ↔ x ∈ s₂) :
    firstOccurFrom s₁ l = firstOccurFrom s₂ l := by
  induction l generalizing s₁ s₂ with
  | nil => rfl
  | cons x xs ih =>
    by_cases hx : x ∈ s₁
    · simp [firstOccurFrom, hx, (h x).mp hx, ih _ _ h]
    · have hx₂ : x ∉ s₂ := fun hc => hx ((h x).mpr hc)
      have harg : ∀ y, y ∈ x :: s₁ ↔ y ∈ x :: s₂ := by
        intro y
        simp [h y]
      simp [firstOccurFrom, hx, hx₂, ih _ _ harg]

/-- The key sequence of the tally is the seen keys followed by the first
occurrences of the remaining stream. -/
theorem keys_tallyLangs (s : List String) (acc : List (String × Nat)) :
    (tallyLangs s acc).map Prod.fst
      = acc.map Prod.fst ++ firstOccurFrom (acc.map Prod.fst) s := by
  induction s generalizing acc with
  | nil => simp [tallyLangs, firstOccurFrom]
  | cons l ls ih =>
    by_cases hm : l ∈ acc.map Prod.fst
    · have hkeys : (bump acc l).map Prod.fst = acc.map Prod.fst := by
        rw [keys_bump, if_pos hm]
      simp [tallyLangs, firstOccurFrom, hm, ih, hkeys]
    · have hkeys : (bump acc l).map Prod.fst = acc.map Prod.fst ++ [l] := by
        rw [keys_bump, if_neg hm]
      have hseen : firstOccurFrom (acc.map Prod.fst ++ [l]) ls
          = firstOccurFrom (l :: acc.map Prod.fst) ls := by
        refine firstOccurFrom_congr _ _ _ (fun x => ?_)
        simp [or_comm]
      simp [tallyLangs, firstOccurFrom, hm, ih, hkeys, hseen]

/-- Every emitted first occurrence is fresh and comes from the stream. -/
theorem mem_firstOccurFrom (s : List String) (seen : List String)
    (x : String) (hx : x ∈ firstOccurFrom seen s) : x ∉ seen ∧ x ∈ s := by
  induction s generalizing seen with
  | nil => simp [firstOccurFrom] at hx
  | cons y ys ih =>
    by_cases hy : y ∈ seen
    · simp only [firstOccurFrom, if_pos hy] at hx
      obtain ⟨h1, h2⟩ := ih _ hx
      exact ⟨h1, List.mem_cons_of_mem _ h2⟩
    · simp only [firstOccurFrom, if_neg hy, List.mem_cons] at hx
      rcases hx with rfl | hx
      · exact ⟨hy, List.mem_cons_self _ _⟩
      · obtain ⟨h1, h2⟩ := ih _ hx
        have h1' : x ∉ seen := fun hc => h1 (List.mem_cons_of_mem _ hc)
        have hxy : x ≠ y := fun hc => h1 (hc ▸ List.mem_cons_self _ _)
        exact ⟨h1', List.mem_cons_of_mem _ h2⟩

/-- The first-occurrence sequence has no duplicates. -/
theorem nodup_firstOccurFrom (s : List String) (seen : List String) :
    (firstOccurFrom seen s).Nodup := by
  induction s generalizing seen with
  | nil => simp [firstOccurFrom]
  | cons y ys ih =>
    by_cases hy : y ∈ seen
    · simpa [firstOccurFrom, hy] using ih seen
    · simp only [firstOccurFrom, if_neg hy]
      refine List.Nodup.cons (fun hc => ?_) (ih (y :: seen))
      exact (mem_firstOccurFrom ys (y :: seen) y hc).1 (List.mem_cons_self _ _)

/-- A `bump` on `l` adds one to the looked-up count of `l` and leaves other
keys unchanged. -/
theorem keyCount_bump (acc : List (String × Nat)) (l x : String) :
    keyCount (bump acc l) x
      = keyCount acc x + (if l = x then 1 else 0) := by
  induction acc with
  | nil => simp [bump, keyCount]
  | cons p rest ih =>
    obtain ⟨k, c⟩ := p
    by_cases hk : k = l
    · subst hk
      by_cases hx : k = x <;> simp [bump, keyCount, hx]
    · by_cases hx : k = x
      · subst hx
        have hlk : ¬l = k := fun hc => hk hc.symm
        simp [bump, keyCount, hk, hlk]
      · simp [bump, keyCount, hk, hx, ih]

/-- The tally accumulates exactly the occurrence counts of the stream. -/
theorem keyCount_tallyLangs (s : List String) (acc : List (String × Nat))
    (x : String) :
    keyCount (tallyLangs s acc) x = keyCount acc x + occCount s x := by
  induction s generalizing acc with
  | nil => simp [tallyLangs, occCount]
  | cons l ls ih =>
    simp only [tallyLangs, occCount, ih, keyCount_bump]
    omega

/-- With duplicate-free keys, membership determines the looked-up count. -/
theorem keyCount_of_mem (acc : List (String × Nat))
    (hnodup : (acc.map Prod.fst).Nodup) (p : String × Nat) (hp : p ∈ acc) :
    keyCount acc p.1 = p.2 := by
  induction acc with
  | nil => simp at hp
  | cons q rest ih =>
    obtain ⟨k, c⟩ := q
    simp only [List.map_cons, List.nodup_cons] at hnodup
    rcases List.mem_cons.mp hp with rfl | hp'
    · simp [keyCount]
    · have hk : k ≠ p.1 := by
        intro hc
        exact hnodup.1 (hc ▸ List.mem_map_of_mem Prod.fst hp')
      simp only [keyCount, if_neg hk]
      exact ih hnodup.2 hp'

/-! ### Stability of the descending sort

Any two entries with the same count keep their relative order: the sublist
of entries carrying a fixed count is untouched by the sort.  Together with
`keys_tallyLangs` this is the "ties broken by first-seen order" behaviour of
Python's stable `sorted`. -/

/-- Inserting an entry does not disturb the sublist of entries with any
fixed count: skipped entries have a strictly larger count. -/
theorem filter_count_orderedInsert (c : Nat) (x : String × Nat)
    (l : List (String × Nat)) :
    (List.orderedInsert langOrder x l).filter (fun p => p.2 = c)
      = if x.2 = c then x :: l.filter (fun p => p.2 = c)
        else l.filter (fun p => p.2 = c) := by
  induction l with
  | nil => by_cases hx : x.2 = c <;> simp [List.orderedInsert, hx]
  | cons b bs ih =>
    by_cases hxb : langOrder x b
    · by_cases hx : x.2 = c <;> simp [List.orderedInsert, hxb, hx]
    · have hlt : x.2 < b.2 := by
        simp only [langOrder, not_le] at hxb
        exact hxb
      by_cases hb : b.2 = c
      · have hx : ¬x.2 = c := by omega
        simp [List.orderedInsert, hxb, hb, hx, ih]
      · by_cases hx : x.2 = c <;> simp [List.orderedInsert, hxb, hb, hx, ih]

/-- The stable sort keeps the sublist of same-count entries unchanged. -/
theorem filter_count_insertionSort (c : Nat) (l : List (String × Nat)) :
    (List.insertionSort langOrder l).filter (fun p => p.2 = c)
      = l.filter (fun p => p.2 = c) := by
  induction l with
  | nil => rfl
  | cons a l ih =>
    by_cases ha : a.2 = c <;>
      simp [List.insertionSort, filter_count_orderedInsert, ha, ih]

/-- Repositories without a usable primary language do not influence the
tally at all. -/
theorem tallyRepos_filter_isSome (C : List RepoNode)
    (acc : List (String × Nat)) :
    tallyRepos (C.filter (fun r => (repoLang r).isSome)) acc
      = tallyRepos C acc := by
  induction C generalizing acc with
  | nil => rfl
  | cons r rs ih =>
    cases h : repoLang r <;> simp [tallyRepos, h, ih]

/-! ### Claim theorems: aggregator -/

/-- C1: for every repository collection `C`, `_calculate_repo_stats C`
returns stats in which each `total` metric (stars, forks, issues, pulls,
commits) equals the corresponding `public` plus `private` metric, and
`public_repos + private_repos` equals the length of `C`. -/
theorem calculate_repo_stats_additive (C : List RepoNode) :
    (calculate_repo_stats C).total_stars
        = (calculate_repo_stats C).public_stars
          + (calculate_repo_stats C).private_stars
    ∧ (calculate_repo_stats C).total_forks
        = (calculate_repo_stats C).public_forks
          + (calculate_repo_stats C).private_forks
    ∧ (calculate_repo_stats C).total_issues
        = (calculate_repo_stats C).public_issues
          + (calculate_repo_stats C).private_issues
    ∧ (calculate_repo_stats C).total_pulls
        = (calculate_repo_stats C).public_pulls
          + (calculate_repo_stats C).private_pulls
    ∧ (calculate_repo_stats C).total_commits
        = (calculate_repo_stats C).public_commits
          + (calculate_repo_stats C).private_commits
    ∧ (calculate_repo_stats C).public_repos
        + (calculate_repo_stats C).private_repos = C.length := by
  refine ⟨?_, ?_, ?_, ?_, ?_, ?_⟩ <;> simp only [calculate_repo_stats]
  · exact sum_map_filter_split getStars getIsPrivate C
  · exact sum_map_filter_split getForks getIsPrivate C
  · exact sum_map_filter_split getIssues getIsPrivate C
  · exact sum_map_filter_split getPulls getIsPrivate C
  · exact sum_map_filter_split getCommits getIsPrivate C
  · exact length_filter_split getIsPrivate C

/-- C7: `_calculate_repo_stats` is total and treats absent nested fields as
zero: the empty collection yields the all-zero stats, a record with missing
issue/pull totals, missing default branch, or missing commit history
contributes 0 to the corresponding aggregate. -/
theorem calculate_repo_stats_total_fn (C : List RepoNode) (r : RepoNode)
    (h1 : r.issues = none) (h2 : r.pullRequests = none)
    (h3 : r.defaultBranchRef = none) :
    calculate_repo_stats [] = zeroCalculatedStats
    ∧ getIssues r = 0
    ∧ getPulls r = 0
    ∧ getCommits r = 0
    ∧ getCommits { r with defaultBranchRef := some ⟨none⟩ } = 0
    ∧ getCommits { r with defaultBranchRef := some ⟨some ⟨none⟩⟩ } = 0
    ∧ (calculate_repo_stats (r :: C)).total_issues
        = (calculate_repo_stats C).total_issues
    ∧ (calculate_repo_stats (r :: C)).total_pulls
        = (calculate_repo_stats C).total_pulls
    ∧ (calculate_repo_stats (r :: C)).total_commits
        = (calculate_repo_stats C).total_commits := by
  refine ⟨rfl, ?_, ?_, ?_, ?_, ?_, ?_, ?_, ?_⟩ <;>
    simp [calculate_repo_stats, getIssues, getPulls, getCommits, h1, h2, h3]

/-- Closed instance of C7 at a concrete all-absent repository record. -/
theorem calculate_repo_stats_total_fn_witness :
    calculate_repo_stats [] = zeroCalculatedStats
    ∧ getIssues emptyRepo = 0
    ∧ getPulls emptyRepo = 0
    ∧ getCommits emptyRepo = 0
    ∧ getCommits { emptyRepo with defaultBranchRef := some ⟨none⟩ } = 0
    ∧ getCommits { emptyRepo with defaultBranchRef := some ⟨some ⟨none⟩⟩ } = 0
    ∧ (calculate_repo_stats [emptyRepo]).total_issues
        = (calculate_repo_stats []).total_issues
    ∧ (calculate_repo_stats [emptyRepo]).total_pulls
        = (calculate_repo_stats []).total_pulls
    ∧ (calculate_repo_stats [emptyRepo]).total_commits
        = (calculate_repo_stats []).total_commits :=
  calculate_repo_stats_total_fn [] emptyRepo rfl rfl rfl

/-- A repository whose only populated field is its primary-language name. -/
def langRepo (lang : String) : RepoNode :=
  { emptyRepo with primaryLanguage := some ⟨some lang⟩ }

/-- C5: `_extract_languages C top_n` returns at most `top_n` names ordered
by non-increasing occurrence count; the tally pairs carry exact occurrence
counts and their keys appear in first-encounter order; the sort never
reorders entries of equal count (stability, hence ties are broken by
first-seen order); repositories without a primary language are skipped; the
empty collection yields the empty list; and the spec's tie example
`[A, B, A, B]` with `top_n = 2` ranks `[A, B]`. -/
theorem extract_languages_spec (C : List RepoNode) (n : Nat) :
    (extract_languages C n).length ≤ n
    ∧ (extract_languages C n).Pairwise
        (fun a b => occCount (C.filterMap repoLang) b
          ≤ occCount (C.filterMap repoLang) a)
    ∧ (∀ p ∈ tallyRepos C [], p.2 = occCount (C.filterMap repoLang) p.1)
    ∧ (∀ c : Nat,
        (List.insertionSort langOrder (tallyRepos C [])).filter
            (fun p => p.2 = c)
          = (tallyRepos C []).filter (fun p => p.2 = c))
    ∧ (tallyRepos C []).map Prod.fst
        = firstOccurFrom [] (C.filterMap repoLang)
    ∧ extract_languages (C.filter (fun r => (repoLang r).isSome)) n
        = extract_languages C n
    ∧ extract_languages [] n = []
    ∧ extract_languages
        [langRepo "A", langRepo "B", langRepo "A", langRepo "B"] 2
        = ["A", "B"] := by
  have hstream : tallyRepos C [] = tallyLangs (C.filterMap repoLang) [] :=
    tallyRepos_eq_tallyLangs C []
  have hkeys : (tallyRepos C []).map Prod.fst
      = firstOccurFrom [] (C.filterMap repoLang) := by
    rw [hstream, keys_tallyLangs]
    simp
  have hnodup : ((tallyRepos C []).map Prod.fst).Nodup := by
    rw [hkeys]
    exact nodup_firstOccurFrom _ _
  have hcount : ∀ p ∈ tallyRepos C [],
      p.2 = occCount (C.filterMap repoLang) p.1 := by
    intro p hp
    have h1 : keyCount (tallyRepos C []) p.1 = p.2 :=
      keyCount_of_mem _ hnodup p hp
    have h2 : keyCount (tallyRepos C []) p.1
        = occCount (C.filterMap repoLang) p.1 := by
      rw [hstream, keyCount_tallyLangs]
      simp [keyCount]
    rw [← h1, h2]
  refine ⟨?_, ?_, hcount, fun c => filter_count_insertionSort c _, hkeys,
    ?_, by simp [extract_languages, tallyRepos], ?_⟩
  · simp only [extract_languages, List.length_map]
    rw [List.length_take]
    exact min_le_left _ _
  · have hsorted :
        (List.insertionSort langOrder (tallyRepos C [])).Pairwise langOrder :=
      List.sorted_insertionSort langOrder (tallyRepos C [])
    have htake :
        ((List.insertionSort langOrder (tallyRepos C [])).take n).Pairwise
          langOrder :=
      List.Pairwise.sublist (List.take_sublist n _) hsorted
    have hmem : ∀ p ∈ (List.insertionSort langOrder (tallyRepos C [])).take n,
        p ∈ tallyRepos C [] := fun p hp =>
      (List.perm_insertionSort langOrder (tallyRepos C [])).subset
        (List.take_subset n _ hp)
    simp only [extract_languages, List.pairwise_map]
    refine List.Pairwise.imp_of_mem ?_ htake
    intro a b ha hb hab
    rw [← hcount a (hmem a ha), ← hcount b (hmem b hb)]
    exact hab
  · simp only [extract_languages, tallyRepos_filter_isSome]
  · decide

/-- Closed instance of C5: its bounded-membership conjuncts applied to the
concrete collection `[Go, Go, Rust, Go, Rust]` of the spec. -/
theorem extract_languages_spec_witness :
    ("Go", 3) ∈ tallyRepos
        [langRepo "Go", langRepo "Go", langRepo "Rust", langRepo "Go",
         langRepo "Rust"] []
    ∧ (3 : Nat) = occCount
        (([langRepo "Go", langRepo "Go", langRepo "Rust", langRepo "Go",
           langRepo "Rust"]).filterMap repoLang) "Go"
    ∧ extract_languages
        [langRepo "A", langRepo "B", langRepo "A", langRepo "B"] 2
        = ["A", "B"] := by
  have h := extract_languages_spec
    [langRepo "Go", langRepo "Go", langRepo "Rust", langRepo "Go",
     langRepo "Rust"] 2
  have hmem : ("Go", 3) ∈ tallyRepos
      [langRepo "Go", langRepo "Go", langRepo "Rust", langRepo "Go",
       langRepo "Rust"] [] := by decide
  exact ⟨hmem, h.2.2.1 ("Go", 3) hmem, (extract_languages_spec [] 2).2.2.2.2.2.2.2⟩

/-! ### Pagination fetcher (`_fetch_all_repositories`)

One loop iteration of `_fetch_all_repositories` issues a page request and
observes one of two outcomes.  `failure` covers every path that executes
`break` without extending the accumulator: a non-200 status or unparsable
body (`_handle_api_response` returns `None`), a body without usable
`data.user` (including a GraphQL top-level `errors` response), and a raised
transport exception.  `success` carries the page's `nodes` and the
`pageInfo` fields the loop reads. -/

inductive PageOutcome where
  | failure
  | success (nodes : List RepoNode) (hasNextPage : Bool) (endCursor : Option String)
deriving DecidableEq, Repr

/-- The nodes a page contributes (`failure` contributes nothing). -/
def pageNodes : PageOutcome → List RepoNode
  | .failure => []
  | .success nodes _ _ => nodes

/-- Concatenated nodes of a sequence of pages. -/
def concatNodes : List PageOutcome → List RepoNode
  | [] => []
  | p :: ps => pageNodes p ++ concatNodes ps

/-- The `while has_next_page and len(all_repos) < self.max_repos` loop of
`_fetch_all_repositories`, consuming the pages the endpoint would deliver
in order.  On success the page's nodes are appended, then the loop breaks
if the accumulator has reached `max_repos`; otherwise it continues exactly
when `hasNextPage` was true.  On failure it breaks, keeping the
accumulator.  No truncation is ever applied to the result. -/
def fetch_loop (max_repos : Nat) : List PageOutcome → List RepoNode → List RepoNode
  | [], all_repos => all_repos
  | page :: rest, all_repos =>
    if all_repos.length < max_repos then
      match page with
      | .failure => all_repos
      | .success nodes hasNext _ =>
        let acc := all_repos ++ nodes
        if max_repos ≤ acc.length then acc
        else if hasNext then fetch_loop max_repos rest acc
        else acc
    else all_repos

/-- `GitHubStatsService._fetch_all_repositories`: run the loop from an empty
accumulator (`cursor = None`, `has_next_page = True`). -/
def fetch_all_repositories (pages : List PageOutcome) (max_repos : Nat) :
    List RepoNode :=
  fetch_loop max_repos pages []

/-- An upper bound on the node count of a page. -/
def pageLen (p : PageOutcome) : Nat :=
  (pageNodes p).length

/-- Unfolding equations for one loop iteration. -/
theorem fetch_loop_cons_failure (max_repos : Nat) (rest : List PageOutcome)
    (acc : List RepoNode) (hacc : acc.length < max_repos) :
    fetch_loop max_repos (PageOutcome.failure :: rest) acc = acc := by
  simp [fetch_loop, hacc]

/-- Unfolding equation for a successful page under the loop guard. -/
theorem fetch_loop_cons_success (max_repos : Nat) (nodes : List RepoNode)
    (hasNext : Bool) (cur : Option String) (rest : List PageOutcome)
    (acc : List RepoNode) (hacc : acc.length < max_repos) :
    fetch_loop max_repos (PageOutcome.success nodes hasNext cur :: rest) acc
      = if max_repos ≤ (acc ++ nodes).length then acc ++ nodes
        else if hasNext then fetch_loop max_repos rest (acc ++ nodes)
        else acc ++ nodes := by
  rw [fetch_loop, if_pos hacc]

/-- The guard: `if true then a else b` reduces to `a`. -/
theorem ite_cond_true {α : Sort _} (a b : α) : (if true then a else b) = a := rfl

/-- The guard: `if false then a else b` reduces to `b`. -/
theorem ite_cond_false {α : Sort _} (a b : α) : (if false then a else b) = b := rfl

/-- A full accumulator stops the loop immediately. -/
theorem fetch_loop_full (max_repos : Nat) (pages : List PageOutcome)
    (acc : List RepoNode) (h : max_repos ≤ acc.length) :
    fetch_loop max_repos pages acc = acc := by
  cases pages with
  | nil => rfl
  | cons p ps => simp [fetch_loop, Nat.not_lt.mpr h]

/-- The accumulator can exceed the cap by at most one page's worth of
nodes. -/
theorem fetch_loop_length_lt (max_repos P : Nat) (pages : List PageOutcome)
    (hP : ∀ p ∈ pages, pageLen p ≤ P) (acc : List RepoNode)
    (hacc : acc.length < max_repos) :
    (fetch_loop max_repos pages acc).length < max_repos + P := by
  induction pages generalizing acc with
  | nil =>
    simp only [fetch_loop]
    omega
  | cons page rest ih =>
    have hrest : ∀ p ∈ rest, pageLen p ≤ P :=
      fun p hp => hP p (List.mem_cons_of_mem _ hp)
    cases page with
    | failure =>
      rw [fetch_loop_cons_failure _ _ _ hacc]
      omega
    | success nodes hasNext cur =>
      have hnodes : nodes.length ≤ P := by
        simpa [pageLen, pageNodes] using hP _ (List.mem_cons_self _ _)
      rw [fetch_loop_cons_success _ _ _ _ _ _ hacc]
      by_cases hfull : max_repos ≤ (acc ++ nodes).length
      · rw [if_pos hfull]
        simp only [List.length_append]
        omega
      · rw [if_neg hfull]
        replace hfull := Nat.not_le.mp hfull
        simp only [List.length_append] at hfull
        cases hasNext with
        | true =>
          rw [ite_cond_true]
          refine ih hrest _ ?_
          simp only [List.length_append]
          omega
        | false =>
          rw [ite_cond_false]
          simp only [List.length_append]
          omega

/-- Once the loop's result has reached the cap, any further pages the
endpoint could deliver are never consulted. -/
theorem fetch_loop_stops (max_repos : Nat) (pages extra : List PageOutcome)
    (acc : List RepoNode)
    (h : max_repos ≤ (fetch_loop max_repos pages acc).length) :
    fetch_loop max_repos (pages ++ extra) acc = fetch_loop max_repos pages acc := by
  induction pages generalizing acc with
  | nil =>
    simp only [fetch_loop] at h
    simp only [List.nil_append]
    rw [fetch_loop_full max_repos extra acc h]
    rfl
  | cons page rest ih =>
    by_cases hacc : acc.length < max_repos
    · cases page with
      | failure =>
        rw [List.cons_append, fetch_loop_cons_failure _ _ _ hacc,
          fetch_loop_cons_failure _ _ _ hacc]
      | success nodes hasNext cur =>
        rw [fetch_loop_cons_success _ _ _ _ _ _ hacc] at h
        rw [List.cons_append, fetch_loop_cons_success _ _ _ _ _ _ hacc,
          fetch_loop_cons_success _ _ _ _ _ _ hacc]
        by_cases hfull : max_repos ≤ (acc ++ nodes).length
        · rw [if_pos hfull, if_pos hfull]
        · rw [if_neg hfull] at h
          rw [if_neg hfull, if_neg hfull]
          cases hasNext with
          | true =>
            rw [ite_cond_true] at h
            rw [ite_cond_true, ite_cond_true]
            exact ih _ h
          | false =>
            rw [ite_cond_false, ite_cond_false]
    · rw [fetch_loop_full _ _ _ (Nat.not_lt.mp hacc),
        fetch_loop_full _ _ _ (Nat.not_lt.mp hacc)]

/-- A page that is delivered and consumed successfully with `hasNextPage`
true, i.e. one the loop fully absorbs before moving on. -/
def goodPage (p : PageOutcome) : Prop :=
  ∃ nodes cur, p = PageOutcome.success nodes true cur

/-- Running the loop through successful pages accumulates exactly their
nodes, as long as the cap is not reached. -/
theorem fetch_loop_good (max_repos : Nat) (pre rest : List PageOutcome)
    (hgood : ∀ p ∈ pre, goodPage p) (acc : List RepoNode)
    (hlen : acc.length + (concatNodes pre).length < max_repos) :
    fetch_loop max_repos (pre ++ PageOutcome.failure :: rest) acc
      = acc ++ concatNodes pre := by
  induction pre generalizing acc with
  | nil =>
    have hacc : acc.length < max_repos := by
      simpa [concatNodes] using hlen
    simp [fetch_loop, if_pos hacc, concatNodes]
  | cons page pre' ih =>
    obtain ⟨nodes, cur, rfl⟩ := hgood page (List.mem_cons_self _ _)
    have hgood' : ∀ p ∈ pre', goodPage p :=
      fun p hp => hgood p (List.mem_cons_of_mem _ hp)
    simp only [concatNodes, pageNodes, List.length_append] at hlen
    have hacc : acc.length < max_repos := by omega
    have hfull : ¬max_repos ≤ (acc ++ nodes).length := by
      simp only [List.length_append]
      omega
    rw [List.cons_append, fetch_loop_cons_success _ _ _ _ _ _ hacc,
      if_neg hfull, ite_cond_true,
      ih hgood' (acc ++ nodes) (by simp only [List.length_append]; omega)]
    simp [concatNodes, pageNodes]

/-! ### Claim theorems: pagination -/

/-- A feed whose first two pages carry 100 repositories each, with more
pages available. -/
def overshootPages : List PageOutcome :=
  [PageOutcome.success (List.replicate 100 emptyRepo) true none,
   PageOutcome.success (List.replicate 100 emptyRepo) true none]

/-- C2 counterexample: with `max_repos = 150` and 100-item pages the loop
appends the whole second page before checking the cap and never truncates,
so the returned collection has 200 items — more than `max_repos`. -/
theorem fetch_all_repositories_cap_counterexample :
    (fetch_all_repositories overshootPages 150).length = 200
    ∧ ¬(fetch_all_repositories overshootPages 150).length ≤ 150 := by
  have h : (fetch_all_repositories overshootPages 150).length = 200 := by rfl
  exact ⟨h, by omega⟩

/-- C2 (amended): the returned collection can overshoot `max_repos` by at
most one page's worth of items — with every delivered page of size at most
`P` and a positive cap, the result length is below `max_repos + P` — and
once the accumulated collection reaches `max_repos`, fetching stops: any
pages beyond that point are never consulted. -/
theorem fetch_all_repositories_cap (pages : List PageOutcome)
    (max_repos P : Nat) (hP : ∀ p ∈ pages, pageLen p ≤ P)
    (hm : 0 < max_repos) :
    (fetch_all_repositories pages max_repos).length < max_repos + P
    ∧ ∀ extra : List PageOutcome,
        max_repos ≤ (fetch_all_repositories pages max_repos).length →
        fetch_all_repositories (pages ++ extra) max_repos
          = fetch_all_repositories pages max_repos := by
  constructor
  · exact fetch_loop_length_lt max_repos P pages hP [] (by simpa using hm)
  · intro extra h
    exact fetch_loop_stops max_repos pages extra [] h

/-- Closed instance of the amended C2 on the concrete overshooting feed. -/
theorem fetch_all_repositories_cap_witness :
    (fetch_all_repositories overshootPages 150).length < 150 + 100
    ∧ fetch_all_repositories (overshootPages ++ [PageOutcome.failure]) 150
        = fetch_all_repositories overshootPages 150 := by
  have h := fetch_all_repositories_cap overshootPages 150 100
    (by decide) (by decide)
  exact ⟨h.1, h.2 [PageOutcome.failure] (by decide)⟩

/-- C3: if the client fails on some page, `_fetch_all_repositories` stops
and returns exactly the nodes accumulated from the preceding successful
pages (provided the cap had not already stopped it); in particular a
failure on the first page yields the empty collection. -/
theorem fetch_all_repositories_partial (pre rest : List PageOutcome)
    (max_repos : Nat) (hgood : ∀ p ∈ pre, goodPage p)
    (hlen : (concatNodes pre).length < max_repos) :
    fetch_all_repositories (pre ++ PageOutcome.failure :: rest) max_repos
      = concatNodes pre
    ∧ fetch_all_repositories (PageOutcome.failure :: rest) max_repos = [] := by
  constructor
  · have h := fetch_loop_good max_repos pre rest hgood [] (by simpa using hlen)
    simpa [fetch_all_repositories] using h
  · by_cases hm : 0 < max_repos
    · simp only [fetch_all_repositories]
      exact fetch_loop_cons_failure _ _ _ (by simpa using hm)
    · have h0 : max_repos = 0 := by omega
      subst h0
      exact fetch_loop_full 0 _ [] (by simp)

/-- Closed instance of C3: one successful page followed by a failing one
returns exactly the first page's nodes, and a failure on the first page
returns the empty collection. -/
theorem fetch_all_repositories_partial_witness :
    fetch_all_repositories
        ([PageOutcome.success [emptyRepo] true none]
          ++ PageOutcome.failure :: []) 1000
      = concatNodes [PageOutcome.success [emptyRepo] true none]
    ∧ fetch_all_repositories (PageOutcome.failure :: []) 1000 = [] := by
  refine fetch_all_repositories_partial
    [PageOutcome.success [emptyRepo] true none] [] 1000 ?_ (by decide)
  intro p hp
  simp only [List.mem_singleton] at hp
  exact ⟨[emptyRepo], none, hp⟩

/-! ### User data: transform and model assembly -/

/-- The `repositories` value of the user payload at transform time.  After
`_fetch_user_data` it is always the dict `\x7b"nodes": all_repos\x7d`; the
`totalCount` key survives only if the profile query result carried one. -/
structure GraphQLRepos where
  nodes : List RepoNode
  totalCount : Option Nat
deriving DecidableEq, Repr

/-- The raw `data.user` object consumed by `_transform_graphql_user_data`.
Each `Option` field is `none` when the key is absent or null. -/
structure GraphQLUser where
  login : Option String
  name : Option String
  bio : Option String
  location : Option String
  company : Option String
  websiteUrl : Option String
  gists : Option CountConn
  followers : Option CountConn
  following : Option CountConn
  createdAt : Option String
  avatarUrl : Option String
  repositories : Option GraphQLRepos
deriving DecidableEq, Repr

/-- The dictionary returned by `_transform_graphql_user_data`.  Every key is
always set (possibly to `None`), so `Option` fields here model stored
values, not key absence. -/
structure TransformedUserData where
  login : Option String
  name : Option String
  bio : Option String
  location : Option String
  company : Option String
  blog : Option String
  public_repos : Nat
  public_gists : Nat
  followers : Nat
  following : Nat
  created_at : Option String
  avatar_url : Option String
  repositories : List RepoNode
deriving DecidableEq, Repr

/-- `GitHubStatsService._transform_graphql_user_data`: rename GraphQL
fields to the expected flat format, flattening the `totalCount`
connections with default 0 and defaulting the repository list to `[]`. -/
def transform_graphql_user_data (u : GraphQLUser) : TransformedUserData :=
  let repos_data := (u.repositories.map GraphQLRepos.nodes).getD []
  let total_repos := (u.repositories.bind GraphQLRepos.totalCount).getD
    repos_data.length
  { login := u.login
    name := u.name
    bio := u.bio
    location := u.location
    company := u.company
    blog := u.websiteUrl
    public_repos := total_repos
    public_gists := (u.gists.bind CountConn.totalCount).getD 0
    followers := (u.followers.bind CountConn.totalCount).getD 0
    following := (u.following.bind CountConn.totalCount).getD 0
    created_at := u.createdAt
    avatar_url := u.avatarUrl
    repositories := repos_data }

/-- The `GitHubUser` dataclass.  `username` is annotated `str` in Python but
actually holds whatever `user_data.get("login", "")` returns — which, since
the transformed dict always contains the `login` key, is the stored value
(possibly `None`), so its honest runtime type is `Option String`. -/
structure GitHubUser where
  username : Option String
  name : Option String
  bio : Option String
  location : Option String
  company : Option String
  blog : Option String
  public_repos : Nat
  public_gists : Nat
  followers : Nat
  following : Nat
  created_at : Option String
  avatar_url : Option String
deriving DecidableEq, Repr

/-- The user-model construction inside `_build_github_stats_model`.  Each
field reads `user_data.get(key)` (some with a default).  `dict.get` falls
back to its default only when the key is missing; `_transform_graphql_user_data`
sets every key, so the `""` default of `.get("login", "")` and the `0`
defaults of the count fields are unreachable and each field is simply the
stored value. -/
def build_github_user (user_data : TransformedUserData) : GitHubUser :=
  { username := user_data.login
    name := user_data.name
    bio := user_data.bio
    location := user_data.location
    company := user_data.company
    blog := user_data.blog
    public_repos := user_data.public_repos
    public_gists := user_data.public_gists
    followers := user_data.followers
    following := user_data.following
    created_at := user_data.created_at
    avatar_url := user_data.avatar_url }

/-- The `RepositoryStats` dataclass (same fields as `CalculatedStats`). -/
structure RepositoryStats where
  total_stars : Nat
  total_forks : Nat
  total_issues : Nat
  total_pulls : Nat
  total_commits : Nat
  public_repos : Nat
  public_stars : Nat
  public_forks : Nat
  public_issues : Nat
  public_pulls : Nat
  public_commits : Nat
  private_repos : Nat
  private_stars : Nat
  private_forks : Nat
  private_issues : Nat
  private_pulls : Nat
  private_commits : Nat
deriving DecidableEq, Repr

/-- The `GitHubRepository` dataclass. -/
structure GitHubRepository where
  name : String
  is_private : Bool
  stargazer_count : Nat
  fork_count : Nat
  issues_count : Nat
  pull_requests_count : Nat
  commits_count : Nat
  primary_language : Option String
deriving DecidableEq, Repr

/-- The per-repository model construction of `_build_github_stats_model`
(note: unlike `_extract_languages`, the `primary_language` here keeps a
present-but-empty name). -/
def build_repo_model (repo : RepoNode) : GitHubRepository :=
  { name := repo.name.getD ""
    is_private := getIsPrivate repo
    stargazer_count := getStars repo
    fork_count := getForks repo
    issues_count := getIssues repo
    pull_requests_count := getPulls repo
    commits_count := getCommits repo
    primary_language :=
      match repo.primaryLanguage with
      | none => none
      | some pl => pl.name }

/-- The `GitHubStats` dataclass: the complete snapshot. -/
structure GitHubStats where
  user : GitHubUser
  stats : RepositoryStats
  github_languages : List String
  account_age_years : Int
  repositories : List GitHubRepository
deriving DecidableEq, Repr

/-- `GitHubStatsService._build_github_stats_model`. -/
def build_github_stats_model (user_data : TransformedUserData)
    (github_languages : List String) (account_age : Int)
    (calculated_stats : CalculatedStats) : GitHubStats :=
  { user := build_github_user user_data
    stats :=
      { total_stars := calculated_stats.total_stars
        total_forks := calculated_stats.total_forks
        total_issues := calculated_stats.total_issues
        total_pulls := calculated_stats.total_pulls
        total_commits := calculated_stats.total_commits
        public_repos := calculated_stats.public_repos
        public_stars := calculated_stats.public_stars
        public_forks := calculated_stats.public_forks
        public_issues := calculated_stats.public_issues
        public_pulls := calculated_stats.public_pulls
        public_commits := calculated_stats.public_commits
        private_repos := calculated_stats.private_repos
        private_stars := calculated_stats.private_stars
        private_forks := calculated_stats.private_forks
        private_issues := calculated_stats.private_issues
        private_pulls := calculated_stats.private_pulls
        private_commits := calculated_stats.private_commits }
    github_languages := github_languages
    account_age_years := account_age
    repositories := user_data.repositories.map build_repo_model }

/-! ### Account age (`_calculate_account_age`) -/

/-- Python `created_at.replace("Z", "+00:00")`.  Because the pattern is the
single character `Z`, substring replacement is per-character
substitution. -/
def py_replace_Z (s : String) : String :=
  String.mk (s.toList.flatMap (fun c => if c = 'Z' then "+00:00".toList else [c]))

/-- Numeric value of a decimal digit character. -/
def digitVal (c : Char) : Nat :=
  c.toNat - 48

/-- The `.year` field of `datetime.fromisoformat(s)`: the parse requires a
`YYYY-MM-DD` date prefix and its year is the leading four-digit field;
a string without that shape raises (`none` here). -/
def fromisoformat_year (s : String) : Option Int :=
  match s.toList with
  | y1 :: y2 :: y3 :: y4 :: '-' :: m1 :: m2 :: '-' :: d1 :: d2 :: _ =>
    if y1.isDigit ∧ y2.isDigit ∧ y3.isDigit ∧ y4.isDigit ∧ m1.isDigit
        ∧ m2.isDigit ∧ d1.isDigit ∧ d2.isDigit then
      some ((digitVal y1 * 1000 + digitVal y2 * 100 + digitVal y3 * 10
        + digitVal y4 : Nat) : Int)
    else none
  | _ => none

/-- `GitHubStatsService._calculate_account_age`:
`datetime.now().year - created_date.year`.  The `"2020-01-01"` fallback of
`.get("created_at", ...)` fires only when the key is missing, which the
transform precludes; a stored `None` raises `AttributeError` in `.replace`
and the `except` branch returns 0, as does any string `fromisoformat`
rejects. -/
def calculate_account_age (created_at : Option String) (nowYear : Int) : Int :=
  match created_at with
  | none => 0
  | some s =>
    match fromisoformat_year (py_replace_Z s) with
    | some y => nowYear - y
    | none => 0

/-! ### Orchestration (`get_github_stats`) -/

/-- `GitHubStatsService.get_github_stats`, given the outcome of
`_fetch_user_data` (which is `none` on any upstream error, not-found, or
transport failure) and the current calendar year.  On a failed fetch the
method prints and returns `None`; otherwise it runs the three reductions
and assembles the model.  (`repos_data = user_data.get("repositories", [])`
followed by the falsy check is the identity on the stored list.) -/
def get_github_stats (fetch_result : Option TransformedUserData)
    (nowYear : Int) : Option GitHubStats :=
  match fetch_result with
  | none => none
  | some user_data =>
    let repos_data := user_data.repositories
    let calculated_stats := calculate_repo_stats repos_data
    let github_languages := extract_languages repos_data 5
    let account_age := calculate_account_age user_data.created_at nowYear
    some (build_github_stats_model user_data github_languages account_age
      calculated_stats)

/-! ### Constructor validation (`GitHubStatsService.__init__`) -/

/-- A Python value passed as the `username` argument. -/
inductive PyValue where
  | pyStr (s : String)
  | pyNone
  | pyInt (n : Int)
  | pyBool (b : Bool)
deriving DecidableEq, Repr

/-- Python truthiness of a `PyValue`. -/
def truthy : PyValue → Bool
  | .pyStr s => !(s == "")
  | .pyNone => false
  | .pyInt n => !(n == 0)
  | .pyBool b => b

/-- `isinstance(x, str)`. -/
def isinstance_str : PyValue → Bool
  | .pyStr _ => true
  | _ => false

/-- The validation prefix of `GitHubStatsService.__init__`:
`if not username or not isinstance(username, str): raise ValueError(...)`,
then `if max_repos <= 0: raise ValueError(...)`; reaching past both checks
raises neither error. -/
def init_validate (username : PyValue) (max_repos : Int) :
    Except String Unit :=
  if !truthy username || !isinstance_str username then
    Except.error "Username must be a non-empty string"
  else if max_repos ≤ 0 then
    Except.error "max_repos must be a positive integer"
  else
    Except.ok ()

/-- Whether the validation raised. -/
def isError : Except String Unit → Bool
  | .error _ => true
  | .ok _ => false

/-! ### Claim theorems: assembly, failure path, account age, validation -/

/-- C9: each optional profile field of the assembled user model is exactly
the raw GraphQL value — an absent/null raw field stays `none` (explicitly
unset), and is therefore distinguishable from a present empty string; no
field is silently defaulted to `""`. -/
theorem assembled_user_unset_fields (g : GraphQLUser) :
    (build_github_user (transform_graphql_user_data g)).username = g.login
    ∧ (build_github_user (transform_graphql_user_data g)).name = g.name
    ∧ (build_github_user (transform_graphql_user_data g)).bio = g.bio
    ∧ (build_github_user (transform_graphql_user_data g)).location
        = g.location
    ∧ (build_github_user (transform_graphql_user_data g)).company
        = g.company
    ∧ (build_github_user (transform_graphql_user_data g)).blog
        = g.websiteUrl
    ∧ (build_github_user (transform_graphql_user_data g)).avatar_url
        = g.avatarUrl
    ∧ (g.login = none →
        (build_github_user (transform_graphql_user_data g)).username
          ≠ some "") := by
  refine ⟨rfl, rfl, rfl, rfl, rfl, rfl, rfl, fun h => ?_⟩
  simp [build_github_user, transform_graphql_user_data, h]

/-- A raw user payload with every optional field absent. -/
def emptyGraphQLUser : GraphQLUser :=
  { login := none, name := none, bio := none, location := none,
    company := none, websiteUrl := none, gists := none, followers := none,
    following := none, createdAt := none, avatarUrl := none,
    repositories := none }

/-- Closed instance of C9 at the all-absent payload. -/
theorem assembled_user_unset_fields_witness :
    (build_github_user (transform_graphql_user_data emptyGraphQLUser)).username
        = none
    ∧ (build_github_user (transform_graphql_user_data emptyGraphQLUser)).username
        ≠ some "" := by
  have h := assembled_user_unset_fields emptyGraphQLUser
  exact ⟨h.1, h.2.2.2.2.2.2.2 rfl⟩

/-- C4 counterexample: when the user-data fetch fails, `get_github_stats`
produces no snapshot at all — the overall result is `None`, not a zeroed
`GitHubStats`. -/
theorem get_github_stats_failure_counterexample :
    get_github_stats none 2025 = none := rfl

/-- C4 (amended): a failed user-data fetch is absorbed without raising, but
the method returns `None` — an absent result — rather than a snapshot with
zeroed aggregates. -/
theorem get_github_stats_failure_returns_none
    (fetch_result : Option TransformedUserData) (nowYear : Int)
    (h : fetch_result = none) :
    get_github_stats fetch_result nowYear = none := by
  subst h
  rfl

/-- Closed instance of the amended C4. -/
theorem get_github_stats_failure_returns_none_witness :
    get_github_stats (none : Option TransformedUserData) 1999 = none :=
  get_github_stats_failure_returns_none none 1999 rfl

/-- C8: whenever the (Z-normalised) creation timestamp parses as an ISO
timestamp with year `y`, `_calculate_account_age` returns exactly
`current_year - y` — integer calendar-year subtraction — so an account
created on 2020-12-31 counts 0 years throughout 2020. -/
theorem calculate_account_age_year_subtraction (s : String) (y nowYear : Int)
    (h : fromisoformat_year (py_replace_Z s) = some y) :
    calculate_account_age (some s) nowYear = nowYear - y
    ∧ calculate_account_age (some "2020-12-31T23:59:59Z") 2020 = 0 := by
  refine ⟨?_, by decide⟩
  simp [calculate_account_age, h]

/-- Closed instance of C8 on a concrete timestamp. -/
theorem calculate_account_age_year_subtraction_witness :
    fromisoformat_year (py_replace_Z "2019-06-15T12:00:00Z") = some 2019
    ∧ calculate_account_age (some "2019-06-15T12:00:00Z") 2025
        = 2025 - 2019 := by
  have h : fromisoformat_year (py_replace_Z "2019-06-15T12:00:00Z")
      = some 2019 := by decide
  exact ⟨h, (calculate_account_age_year_subtraction _ _ 2025 h).1⟩

/-- C10: the constructor validation raises `ValueError` for an empty-string
or non-string username and for any `max_repos ≤ 0`, and raises neither
error for a non-empty string username with positive `max_repos`. -/
theorem init_validate_spec :
    (∀ m : Int, init_validate (.pyStr "") m
        = Except.error "Username must be a non-empty string")
    ∧ (∀ (u : PyValue) (m : Int), isinstance_str u = false →
        init_validate u m
          = Except.error "Username must be a non-empty string")
    ∧ (∀ (s : String) (m : Int), s ≠ "" → m ≤ 0 →
        init_validate (.pyStr s) m
          = Except.error "max_repos must be a positive integer")
    ∧ (∀ (u : PyValue) (m : Int), m ≤ 0 → isError (init_validate u m) = true)
    ∧ (∀ (s : String) (m : Int), s ≠ "" → 0 < m →
        init_validate (.pyStr s) m = Except.ok ()) := by
  refine ⟨fun m => rfl, ?_, ?_, ?_, ?_⟩
  · intro u m hu
    cases u <;> simp_all [init_validate, isinstance_str, truthy]
  · intro s m hs hm
    have hne : (s == "") = false := by
      simpa using hs
    simp [init_validate, truthy, isinstance_str, hne, hm]
  · intro u m hm
    cases u with
    | pyStr s =>
      by_cases hs : s = ""
      · subst hs
        simp [init_validate, truthy, isError]
      · have hne : (s == "") = false := by simpa using hs
        simp [init_validate, truthy, isinstance_str, hne, hm, isError]
    | pyNone => simp [init_validate, truthy, isinstance_str, isError]
    | pyInt n => simp [init_validate, truthy, isinstance_str, isError]
    | pyBool b => simp [init_validate, truthy, isinstance_str, isError]
  · intro s m hs hm
    have hne : (s == "") = false := by simpa using hs
    simp [init_validate, truthy, isinstance_str, hne, Int.not_le.mpr hm]

/-- Closed instance of C10 at concrete arguments. -/
theorem init_validate_spec_witness :
    init_validate (.pyStr "") 5
        = Except.error "Username must be a non-empty string"
    ∧ init_validate (.pyInt 7) 5
        = Except.error "Username must be a non-empty string"
    ∧ init_validate (.pyStr "octocat") 0
        = Except.error "max_repos must be a positive integer"
    ∧ isError (init_validate .pyNone (-3)) = true
    ∧ init_validate (.pyStr "octocat") 1000 = Except.ok () := by
  refine ⟨init_validate_spec.1 5, ?_, ?_, ?_, ?_⟩
  · exact init_validate_spec.2.1 (.pyInt 7) 5 rfl
  · exact init_validate_spec.2.2.1 "octocat" 0 (by decide) (by decide)
  · exact init_validate_spec.2.2.2.1 .pyNone (-3) (by decide)
  · exact init_validate_spec.2.2.2.2 "octocat" 1000 (by decide) (by decide)

/-! ### Streak calculator

Modelled from the spec: the repository sources contain no streak code (no
`computeStreaks` implementation appears under `src/`), so the calculator of
spec section 4.5 is translated from the spec's own algorithm description:
sort the series ascending by date, keep a running `temp_streak` that
increments on days with positive count and resets on zero-count days,
record `longest_streak = max(longest_streak, temp_streak)` on every
increment, and update `current_streak` only on days on-or-before the
reference date. -/

/-- Modelled from the spec: a `ContributionDay` — a calendar date (totally
ordered, encoded as a day number) with a non-negative contribution
count. -/
structure ContributionDay where
  date : Nat
  count : Nat
deriving DecidableEq, Repr

/-- Modelled from the spec: a `StreakResult`. -/
structure StreakResult where
  current_streak : Nat
  longest_streak : Nat
deriving DecidableEq, Repr

/-- Ascending-by-date comparator for the defensive sort. -/
def dateOrder (a b : ContributionDay) : Prop := a.date ≤ b.date

instance : DecidableRel dateOrder := fun a b => Nat.decLe a.date b.date

instance : IsTotal ContributionDay dateOrder :=
  ⟨fun a b => Nat.le_total a.date b.date⟩

instance : IsTrans ContributionDay dateOrder :=
  ⟨fun _ _ _ hab hbc => le_trans hab hbc⟩

/-- Modelled from the spec: one day of the streak scan over the state
`(temp_streak, longest_streak, current_streak)`. -/
def streak_step (referenceDate : Nat) (st : Nat × Nat × Nat)
    (d : ContributionDay) : Nat × Nat × Nat :=
  if 0 < d.count then
    let temp := st.1 + 1
    let longest := max st.2.1 temp
    let current := if d.date ≤ referenceDate then temp else st.2.2
    (temp, longest, current)
  else
    (0, st.2.1, if d.date ≤ referenceDate then 0 else st.2.2)

/-- Modelled from the spec: `computeStreaks(series, referenceDate)` — sort
ascending by date, scan with `streak_step` from the zero state. -/
def compute_streaks (series : List ContributionDay) (referenceDate : Nat) :
    StreakResult :=
  let sorted := List.insertionSort dateOrder series
  let final := sorted.foldl (streak_step referenceDate) (0, 0, 0)
  { current_streak := final.2.2, longest_streak := final.2.1 }

/-- Length of the leading run of qualifying (positive-count) days. -/
def leadRun : List ContributionDay → Nat
  | [] => 0
  | d :: ds => if 0 < d.count then leadRun ds + 1 else 0

/-- The maximum run of consecutive qualifying days: the largest leading run
over all suffixes. -/
def maxRun : List ContributionDay → Nat
  | [] => 0
  | d :: ds => max (leadRun (d :: ds)) (maxRun ds)

/-- The maximum run when a run of length `t` is already open. -/
def maxRunPre (t : Nat) : List ContributionDay → Nat
  | [] => t
  | d :: ds => if 0 < d.count then maxRunPre (t + 1) ds
    else max t (maxRunPre 0 ds)

/-- Whether a day is on-or-before the reference date. -/
def onOrBefore (referenceDate : Nat) (d : ContributionDay) : Bool :=
  d.date ≤ referenceDate

/-- The leading run never beats the maximum run. -/
theorem leadRun_le_maxRun (l : List ContributionDay) :
    leadRun l ≤ maxRun l := by
  cases l with
  | nil => exact le_refl 0
  | cons d ds => exact le_max_left _ _

/-- `maxRunPre` in terms of the leading run and the maximum run. -/
theorem maxRunPre_eq (l : List ContributionDay) (t : Nat) :
    maxRunPre t l = max (t + leadRun l) (maxRun l) := by
  induction l generalizing t with
  | nil => simp [maxRunPre, leadRun, maxRun]
  | cons d ds ih =>
    by_cases hd : 0 < d.count
    · have hih := ih (t + 1)
      simp only [maxRunPre, leadRun, maxRun, if_pos hd, hih]
      omega
    · have hih := ih 0
      have hlm := leadRun_le_maxRun ds
      simp only [maxRunPre, leadRun, maxRun, if_neg hd, hih]
      omega

/-- An open run only grows. -/
theorem le_maxRunPre (l : List ContributionDay) (t : Nat) :
    t ≤ maxRunPre t l := by
  induction l generalizing t with
  | nil => exact le_refl t
  | cons d ds ih =>
    by_cases hd : 0 < d.count
    · simp only [maxRunPre, if_pos hd]
      exact le_trans (Nat.le_succ t) (ih (t + 1))
    · simp only [maxRunPre, if_neg hd]
      exact le_max_left _ _

/-- The scan's `longest_streak` component computes `maxRunPre`. -/
theorem foldl_streak_longest (referenceDate : Nat)
    (l : List ContributionDay) (st : Nat × Nat × Nat)
    (h : st.1 ≤ st.2.1) :
    (l.foldl (streak_step referenceDate) st).2.1
      = max st.2.1 (maxRunPre st.1 l) := by
  induction l generalizing st with
  | nil =>
    simp only [List.foldl_nil, maxRunPre]
    omega
  | cons d ds ih =>
    by_cases hd : 0 < d.count
    · simp only [List.foldl_cons, streak_step, if_pos hd]
      rw [ih _ (le_max_right _ _)]
      simp only [maxRunPre, if_pos hd]
      have hle := le_maxRunPre ds (st.1 + 1)
      omega
    · simp only [List.foldl_cons, streak_step, if_neg hd]
      rw [ih _ (Nat.zero_le _)]
      simp only [maxRunPre, if_neg hd]
      omega

/-- The scan maintains `current_streak ≤ longest_streak` (and
`temp_streak ≤ longest_streak`). -/
theorem foldl_streak_current_le (referenceDate : Nat)
    (l : List ContributionDay) (st : Nat × Nat × Nat)
    (h1 : st.2.2 ≤ st.2.1) (h2 : st.1 ≤ st.2.1) :
    (l.foldl (streak_step referenceDate) st).2.2
      ≤ (l.foldl (streak_step referenceDate) st).2.1 := by
  induction l generalizing st with
  | nil => simpa using h1
  | cons d ds ih =>
    by_cases hd : 0 < d.count
    · simp only [List.foldl_cons, streak_step, if_pos hd]
      by_cases hdate : d.date ≤ referenceDate
      · rw [if_pos hdate]
        exact ih _ (le_max_right _ _) (le_max_right _ _)
      · rw [if_neg hdate]
        refine ih _ ?_ (le_max_right _ _)
        exact le_trans h1 (le_max_left _ _)
    · simp only [List.foldl_cons, streak_step, if_neg hd]
      by_cases hdate : d.date ≤ referenceDate
      · rw [if_pos hdate]
        exact ih _ (Nat.zero_le _) (Nat.zero_le _)
      · rw [if_neg hdate]
        exact ih _ h1 (Nat.zero_le _)

/-- Days strictly after the reference date never change
`current_streak`. -/
theorem foldl_streak_current_unchanged (referenceDate : Nat)
    (l : List ContributionDay)
    (hl : ∀ d ∈ l, ¬d.date ≤ referenceDate) (st : Nat × Nat × Nat) :
    (l.foldl (streak_step referenceDate) st).2.2 = st.2.2 := by
  induction l generalizing st with
  | nil => rfl
  | cons d ds ih =>
    have hd : ¬d.date ≤ referenceDate := hl d (List.mem_cons_self _ _)
    have hds : ∀ e ∈ ds, ¬e.date ≤ referenceDate :=
      fun e he => hl e (List.mem_cons_of_mem _ he)
    by_cases hc : 0 < d.count
    · simp only [List.foldl_cons, streak_step, if_pos hc, if_neg hd]
      exact ih hds _
    · simp only [List.foldl_cons, streak_step, if_neg hc, if_neg hd]
      exact ih hds _

/-- A date-sorted list is its on-or-before part followed by its after
part. -/
theorem sorted_split_onOrBefore (referenceDate : Nat)
    (l : List ContributionDay) (hl : l.Pairwise dateOrder) :
    l = l.filter (onOrBefore referenceDate)
      ++ l.filter (fun d => !onOrBefore referenceDate d) := by
  induction l with
  | nil => rfl
  | cons d ds ih =>
    rw [List.pairwise_cons] at hl
    obtain ⟨hall, hds⟩ := hl
    cases hd : onOrBefore referenceDate d with
    | true =>
      have h1 : (d :: ds).filter (onOrBefore referenceDate)
          = d :: ds.filter (onOrBefore referenceDate) := by
        simp [List.filter_cons, hd]
      have h2 : (d :: ds).filter (fun e => !onOrBefore referenceDate e)
          = ds.filter (fun e => !onOrBefore referenceDate e) := by
        simp [List.filter_cons, hd]
      rw [h1, h2, List.cons_append]
      exact congrArg (d :: ·) (ih hds)
    | false =>
      have hdr : referenceDate < d.date := by
        simpa [onOrBefore] using hd
      have hafter : ∀ e ∈ ds, onOrBefore referenceDate e = false := by
        intro e he
        have : d.date ≤ e.date := hall e he
        simp only [onOrBefore, decide_eq_false_iff_not, not_le]
        omega
      have h1 : ds.filter (onOrBefore referenceDate) = [] := by
        rw [List.filter_eq_nil_iff]
        intro e he
        simp [hafter e he]
      have h2 : ds.filter (fun d => !onOrBefore referenceDate d) = ds := by
        rw [List.filter_eq_self]
        intro e he
        simp [hafter e he]
      simp [List.filter_cons, hd, h1, h2]

/-- Inserting a day from after the reference date does not change the
on-or-before part. -/
theorem filter_onOrBefore_orderedInsert_false (referenceDate : Nat)
    (x : ContributionDay) (hx : onOrBefore referenceDate x = false)
    (l : List ContributionDay) :
    (List.orderedInsert dateOrder x l).filter (onOrBefore referenceDate)
      = l.filter (onOrBefore referenceDate) := by
  induction l with
  | nil => simp [List.orderedInsert, List.filter_cons, hx]
  | cons y ys ih =>
    by_cases hxy : dateOrder x y
    · simp [List.orderedInsert, if_pos hxy, List.filter_cons, hx]
    · cases hy : onOrBefore referenceDate y <;>
        simp [List.orderedInsert, if_neg hxy, List.filter_cons, hy, ih]

/-- Inserting an on-or-before day into a date-sorted list commutes with
taking the on-or-before part. -/
theorem filter_onOrBefore_orderedInsert_true (referenceDate : Nat)
    (x : ContributionDay) (hx : onOrBefore referenceDate x = true)
    (l : List ContributionDay) (hl : l.Pairwise dateOrder) :
    (List.orderedInsert dateOrder x l).filter (onOrBefore referenceDate)
      = List.orderedInsert dateOrder x
          (l.filter (onOrBefore referenceDate)) := by
  induction l with
  | nil => simp [List.orderedInsert, List.filter_cons, hx]
  | cons y ys ih =>
    rw [List.pairwise_cons] at hl
    obtain ⟨hall, hys⟩ := hl
    by_cases hxy : dateOrder x y
    · cases hy : onOrBefore referenceDate y with
      | true =>
        simp [List.orderedInsert, if_pos hxy, List.filter_cons, hx, hy]
      | false =>
        have hyr : referenceDate < y.date := by
          simpa [onOrBefore] using hy
        have hafter : ys.filter (onOrBefore referenceDate) = [] := by
          rw [List.filter_eq_nil_iff]
          intro e he
          have : y.date ≤ e.date := hall e he
          simp only [onOrBefore, decide_eq_true_eq, not_le]
          omega
        simp [List.orderedInsert, if_pos hxy, List.filter_cons, hx, hy,
          hafter]
    · have hyx : y.date ≤ x.date := by
        have := Nat.not_le.mp (fun h => hxy h)
        omega
      have hxr : x.date ≤ referenceDate := by
        simpa [onOrBefore] using hx
      have hy : onOrBefore referenceDate y = true := by
        simp only [onOrBefore, decide_eq_true_eq]
        omega
      simp only [List.orderedInsert, if_neg hxy, List.filter_cons, hy,
        cond_true, ih hys]
      simp [List.filter_cons, hy, List.orderedInsert, if_neg hxy]

/-- The defensive sort commutes with restricting to on-or-before days. -/
theorem insertionSort_filter_onOrBefore (referenceDate : Nat)
    (l : List ContributionDay) :
    List.insertionSort dateOrder (l.filter (onOrBefore referenceDate))
      = (List.insertionSort dateOrder l).filter (onOrBefore referenceDate) := by
  induction l with
  | nil => rfl
  | cons a l ih =>
    cases ha : onOrBefore referenceDate a with
    | true =>
      have h1 : (a :: l).filter (onOrBefore referenceDate)
          = a :: l.filter (onOrBefore referenceDate) := by
        simp [List.filter_cons, ha]
      rw [h1]
      simp only [List.insertionSort]
      rw [ih]
      exact (filter_onOrBefore_orderedInsert_true referenceDate a ha _
        (List.sorted_insertionSort dateOrder l)).symm
    | false =>
      have h1 : (a :: l).filter (onOrBefore referenceDate)
          = l.filter (onOrBefore referenceDate) := by
        simp [List.filter_cons, ha]
      rw [h1, ih]
      simp only [List.insertionSort]
      exact (filter_onOrBefore_orderedInsert_false referenceDate a ha _).symm

/-- C6 (modelled from the spec): `computeStreaks` returns
`longest_streak ≥ current_streak` (both non-negative by type); its
`longest_streak` is the maximum run of consecutive qualifying days of the
sorted series; its `current_streak` depends only on the days on-or-before
the reference date (days after it have no effect); the series
`[(d1,1), (d2,1), (d3,0), (d4,1)]` with reference date `d4` yields
`current_streak = 1` and `longest_streak = 2` (the zero-count day before
the reference date reset the current streak); and the empty series yields
`(0, 0)`. -/
theorem compute_streaks_spec (series : List ContributionDay)
    (referenceDate : Nat) :
    (compute_streaks series referenceDate).current_streak
        ≤ (compute_streaks series referenceDate).longest_streak
    ∧ (compute_streaks series referenceDate).longest_streak
        = maxRun (List.insertionSort dateOrder series)
    ∧ (compute_streaks series referenceDate).current_streak
        = (compute_streaks (series.filter (onOrBefore referenceDate))
            referenceDate).current_streak
    ∧ compute_streaks [⟨1, 1⟩, ⟨2, 1⟩, ⟨3, 0⟩, ⟨4, 1⟩] 4
        = { current_streak := 1, longest_streak := 2 }
    ∧ compute_streaks [⟨1, 1⟩, ⟨2, 0⟩] 2
        = { current_streak := 0, longest_streak := 1 }
    ∧ compute_streaks [] referenceDate
        = { current_streak := 0, longest_streak := 0 } := by
  refine ⟨?_, ?_, ?_, by decide, by decide, rfl⟩
  · exact foldl_streak_current_le referenceDate _ (0, 0, 0)
      (le_refl 0) (le_refl 0)
  · simp only [compute_streaks]
    rw [foldl_streak_longest referenceDate _ (0, 0, 0) (le_refl 0)]
    rw [maxRunPre_eq]
    have hlm := leadRun_le_maxRun (List.insertionSort dateOrder series)
    dsimp only
    omega
  · simp only [compute_streaks]
    have hsorted : (List.insertionSort dateOrder series).Pairwise dateOrder :=
      List.sorted_insertionSort dateOrder series
    have hsplit := sorted_split_onOrBefore referenceDate _ hsorted
    conv_lhs => rw [hsplit]
    rw [List.foldl_append]
    rw [foldl_streak_current_unchanged referenceDate _ ?_ _]
    · rw [insertionSort_filter_onOrBefore]
    · intro d hd
      have := List.of_mem_filter hd
      simpa [onOrBefore] using this

end Gl1tchCard
